import Mathlib

/-!
# Verification of the zotero-spotlight search core

A shallow embedding of the search core of the zotero-spotlight plugin
(`src/modules/spotlight/search.ts` and `src/modules/spotlight/palette.ts`)
together with proofs about its fuzzy matcher, index builder, query filters,
session state and command registry.

Strings are modelled as `List Char`; JavaScript numbers that can carry the
sentinel `-1` are modelled as `Int`; the host document store is modelled as
explicit data passed to the functions.
-/

namespace Spotlight

/-- Whitespace test: the model of the JavaScript regular-expression class
`\s` restricted to the characters that occur in practice. -/
def isWs (c : Char) : Bool := c = ' ' || c = '\t' || c = '\n' || c = '\r'

/-- One pass of `value.replace(/\s+/g, " ")`: every maximal run of whitespace
becomes a single space.  The boolean records whether the previous character
was whitespace. -/
def collapseWs : Bool → List Char → List Char
  | _, [] => []
  | prevWs, c :: rest =>
    if isWs c then
      if prevWs then collapseWs true rest
      else ' ' :: collapseWs true rest
    else c :: collapseWs false rest

/-- Model of `String.prototype.trim`: drop whitespace from both ends. -/
def trimWs (s : List Char) : List Char :=
  ((s.dropWhile isWs).reverse.dropWhile isWs).reverse

/-- Embedding of `normalize` (search.ts 579-581):
`value.toLowerCase().replace(/\s+/g, " ").trim()`. -/
def normalize (s : List Char) : List Char :=
  trimWs (collapseWs false (s.map Char.toLower))

/-- The word-boundary characters of `fuzzyScore` (search.ts 613): space,
slash, dash and underscore. -/
def boundaryChar (c : Char) : Bool := c = ' ' || c = '/' || c = '-' || c = '_'

/-- Index of the first occurrence of `c` in a list, if any: the model of the
forward scan `while (tIndex < t.length) ...` of `fuzzyScore`
(search.ts 596-602) applied to the part of the haystack that starts at the
current scan position. -/
def findFrom (c : Char) : List Char → Option Nat
  | [] => none
  | x :: xs => if x = c then some 0 else (findFrom c xs).map (· + 1)

/-- `leadsWith q t` holds when `q` is an initial segment of `t`; helper for
the model of `String.prototype.includes`. -/
def leadsWith : List Char → List Char → Bool
  | [], _ => true
  | _ :: _, [] => false
  | a :: as, b :: bs => a = b && leadsWith as bs

/-- Model of `t.includes(q)` (search.ts 619): `q` occurs contiguously in
`t`. -/
def containsSub (q : List Char) : List Char → Bool
  | [] => q.isEmpty
  | x :: ts => leadsWith q (x :: ts) || containsSub q ts

/-- The main loop of `fuzzyScore` (search.ts 593-618).  Arguments mirror the
mutable locals of the source: the remaining query characters, `tIndex` (the
next haystack position to scan), `lastMatch` (starts at `-1`), `consecutive`
and `score`.  `none` models the early `return -1` when some query character
has no remaining occurrence. -/
def fuzzyLoop (t : List Char) : List Char → Nat → Int → Nat → Int → Option Int
  | [], _, _, _, score => some score
  | c :: qs, tIndex, lastMatch, consec, score =>
    match findFrom c (t.drop tIndex) with
    | none => none
    | some off =>
      let m := tIndex + off
      let consec2 := if (m : Int) = lastMatch + 1 then consec + 1 else 0
      let score2 : Int :=
        if (m : Int) = lastMatch + 1 then score + 5 + ((consec : Int) + 1)
        else score + 1
      let score3 : Int :=
        if m = 0 || boundaryChar (t.getD (m - 1) 'x') then score2 + 3 else score2
      fuzzyLoop t qs (m + 1) (m : Int) consec2 score3

/-- Embedding of `fuzzyScore` (search.ts 583-624).  Both strings are
normalized; an empty normalized query or haystack returns the sentinel `-1`;
otherwise the subsequence walk runs and, on success, the substring bonus
(`+8`) and the length-closeness bonus (`max(0, 10 - (t.length - q.length))`)
are added. -/
def fuzzyScore (query text : List Char) : Int :=
  let q := normalize query
  let t := normalize text
  if q = [] ∨ t = [] then -1
  else
    match fuzzyLoop t q 0 (-1) 0 0 with
    | none => -1
    | some s =>
      let s1 : Int := if containsSub q t then s + 8 else s
      s1 + max 0 (10 - ((t.length : Int) - (q.length : Int)))

/-- The list of haystack positions chosen by the greedy forward walk of
`fuzzyScore`, separated from the scoring: position `tIndex + off` is the
first occurrence of the current query character at or after the scan
position. -/
def greedyPositions (t : List Char) : List Char → Nat → Option (List Nat)
  | [], _ => some []
  | c :: qs, tIndex =>
    match findFrom c (t.drop tIndex) with
    | none => none
    | some off =>
      (greedyPositions t qs (tIndex + off + 1)).map (fun ps => (tIndex + off) :: ps)

/-- The per-character accumulation of the source, restated over a match
position list: a consecutive match (position immediately after the previous
one) contributes `5 + runLength` INSTEAD of the baseline, a gap match
contributes the `+1` baseline, and a word-boundary match adds a flat `+3`. -/
def runScore (t : List Char) : List Nat → Int → Nat → Int
  | [], _, _ => 0
  | p :: ps, lastMatch, consec =>
    let base : Int :=
      if (p : Int) = lastMatch + 1 then 5 + ((consec : Int) + 1) else 1
    let bonus : Int :=
      if p = 0 || boundaryChar (t.getD (p - 1) 'x') then 3 else 0
    let consec2 := if (p : Int) = lastMatch + 1 then consec + 1 else 0
    base + bonus + runScore t ps (p : Int) consec2

/-- The amended specification of `fuzzyScore`: greedy match positions first,
then `runScore` over them, plus substring and length bonuses.  Matches the
spec text once the consecutive-run bonus is read as replacing the baseline. -/
def specFuzzyScore (query text : List Char) : Int :=
  let q := normalize query
  let t := normalize text
  if q = [] ∨ t = [] then -1
  else
    match greedyPositions t q 0 with
    | none => -1
    | some ps =>
      runScore t ps (-1) 0 + (if containsSub q t then 8 else 0) +
        max 0 (10 - ((t.length : Int) - (q.length : Int)))

/-- The accumulation exactly as the claim words it: a `+1` baseline for
EVERY matched character, with the consecutive-run bonus `5 + runLength`
added ON TOP of the baseline when the match is consecutive. -/
def claimRunScore (t : List Char) : List Nat → Int → Nat → Int
  | [], _, _ => 0
  | p :: ps, lastMatch, consec =>
    let consecBonus : Int :=
      if (p : Int) = lastMatch + 1 then 5 + ((consec : Int) + 1) else 0
    let bonus : Int :=
      if p = 0 || boundaryChar (t.getD (p - 1) 'x') then 3 else 0
    let consec2 := if (p : Int) = lastMatch + 1 then consec + 1 else 0
    1 + consecBonus + bonus + claimRunScore t ps (p : Int) consec2

/-- `fuzzyScore` as the claim describes it (baseline always added); used to
exhibit the divergence from the implementation. -/
def claimFuzzyScore (query text : List Char) : Int :=
  let q := normalize query
  let t := normalize text
  if q = [] ∨ t = [] then -1
  else
    match greedyPositions t q 0 with
    | none => -1
    | some ps =>
      claimRunScore t ps (-1) 0 + (if containsSub q t then 8 else 0) +
        max 0 (10 - ((t.length : Int) - (q.length : Int)))

/-- The host-record facts `isSearchableAttachment` (search.ts 382-409)
consults on an attachment: `isAnnotation()`, `isEmbeddedImageAttachment()`,
`isFileAttachment()`, `isWebAttachment()` and the presence of
`attachmentContentType || attachmentMIMEType` (the host methods are assumed
present, as they are on Zotero items). -/
structure AttachData where
  annot : Bool
  embedded : Bool
  fileAtt : Bool
  webAtt : Bool
  contentType : Bool
deriving DecidableEq

/-- Classification of a host record: `isRegularItem()`, `isNote()` or
`isAttachment()` (with its attachment facts). -/
inductive ItemKind where
  | regular
  | note
  | attach (d : AttachData)
deriving DecidableEq

/-- A host record as far as the index builder reads it: numeric id, kind,
and `parentID ?? parentItemID`. -/
structure Item where
  id : Nat
  kind : ItemKind
  parent : Option Nat
deriving DecidableEq

/-- Embedding of `isSearchableAttachment` (search.ts 382-409), keeping the
source's early-return order: not an attachment, annotation or embedded image
give `false`; a file attachment or a web attachment give `true`; otherwise
the presence of a content type decides. -/
def isSearchableAttachment (it : Item) : Bool :=
  match it.kind with
  | ItemKind.attach d =>
    if d.annot then false
    else if d.embedded then false
    else if d.fileAtt then true
    else if d.webAtt then true
    else d.contentType
  | _ => false

/-- The amended statement of C9: an attachment is searchable iff it is not
an annotation, not an embedded image, and is a file attachment OR a web
attachment OR has a content type. -/
def amendedSearchable (it : Item) : Bool :=
  match it.kind with
  | ItemKind.attach d =>
    !d.annot && !d.embedded && (d.fileAtt || d.webAtt || d.contentType)
  | _ => false

/-- The classification exactly as claim C9 words it: a file or web
attachment WITH a content type, and not an annotation or embedded image. -/
def claimSearchable (it : Item) : Bool :=
  match it.kind with
  | ItemKind.attach d =>
    (d.fileAtt || d.webAtt) && d.contentType && !d.annot && !d.embedded
  | _ => false

/-- A file attachment without a content type: the input separating
`isSearchableAttachment` from claim C9's wording. -/
def fileNoType : Item :=
  { id := 7, kind := ItemKind.attach ⟨false, false, true, false, false⟩,
    parent := none }

/-- The coarse result category of an index entry (`kind` in the source). -/
inductive ResultKind where
  | item
  | attachment
deriving DecidableEq

/-- An index entry at the granularity claim C3 needs: which record produced
it (`id`) and its coarse kind.  Display metadata of the source entry is not
read by the suppression invariant and is omitted. -/
structure IndexEntry where
  id : Nat
  kind : ResultKind
deriving DecidableEq

/-- The contribution of one record to the first pass of `buildIndex`
(search.ts 192-203): a searchable attachment contributes its parent id. -/
def parentKeyOf (it : Item) : Option Nat :=
  if isSearchableAttachment it then it.parent else none

/-- First pass of `buildIndex` over one library: collect the parent ids of
its searchable attachments into the (shared, growing) set. -/
def passOne (acc : List Nat) (lib : List Item) : List Nat :=
  acc ++ lib.filterMap parentKeyOf

/-- The entries one record contributes in the second pass of `buildIndex`
(search.ts 204-286): a regular item is suppressed when its id is in the
parents-with-attachment set, a note always yields one entry, an attachment
yields one entry iff searchable. -/
def entriesFor (parents : List Nat) (it : Item) : List IndexEntry :=
  match it.kind with
  | ItemKind.regular =>
    if it.id ∈ parents then [] else [⟨it.id, ResultKind.item⟩]
  | ItemKind.note => [⟨it.id, ResultKind.item⟩]
  | ItemKind.attach _ =>
    if isSearchableAttachment it then [⟨it.id, ResultKind.attachment⟩] else []

/-- Second pass of `buildIndex` over one library. -/
def passTwo (parents : List Nat) : List Item → List IndexEntry
  | [] => []
  | it :: rest => entriesFor parents it ++ passTwo parents rest

/-- The per-library loop of `buildIndex` (search.ts 188-287): for each
library, run the first pass into the accumulated parents set, then build
that library's entries with the current set; the set is shared across
libraries as in the source (declared outside the loop). -/
def buildIndexAux : List (List Item) → List Nat → List IndexEntry
  | [], _ => []
  | lib :: rest, parents =>
    let parents2 := passOne parents lib
    passTwo parents2 lib ++ buildIndexAux rest parents2

/-- Embedding of `buildIndex` (search.ts 184-289): the corpus is the list of
libraries, each a list of records. -/
def buildIndex (libs : List (List Item)) : List IndexEntry :=
  buildIndexAux libs []

/-- All records of the corpus. -/
def allItems (libs : List (List Item)) : List Item := libs.flatten

/-- Number of index entries carrying the record id `y`. -/
def cnt (y : Nat) (es : List IndexEntry) : Nat :=
  (es.map (fun e => e.id)).count y

/-- A record owns a searchable attachment when some searchable attachment in
the corpus names it as parent. -/
def ownsSearchable (libs : List (List Item)) (r : Item) : Prop :=
  ∃ a ∈ allItems libs, isSearchableAttachment a = true ∧ a.parent = some r.id

instance (libs : List (List Item)) (r : Item) : Decidable (ownsSearchable libs r) := by
  unfold ownsSearchable
  exact List.decidableBEx _ _

/-- The records the spec calls eligible: a regular item without searchable
attachment, a note, or a searchable attachment. -/
def eligibleItem (libs : List (List Item)) (x : Item) : Prop :=
  (x.kind = ItemKind.regular ∧ ¬ ownsSearchable libs x) ∨
  x.kind = ItemKind.note ∨
  isSearchableAttachment x = true

/-- A one-library corpus: a paper with a searchable PDF attachment, a note,
and a second paper without attachments. -/
def witLibs : List (List Item) :=
  [[⟨1, ItemKind.regular, none⟩,
    ⟨2, ItemKind.attach ⟨false, false, true, false, true⟩, some 1⟩,
    ⟨3, ItemKind.note, some 1⟩,
    ⟨4, ItemKind.regular, none⟩]]

/-- The fine result category used by `type:` filtering. -/
inductive ResultType where
  | item
  | note
  | pdf
deriving DecidableEq

/-- An index entry as far as `matchesFilters` reads it: `resultType`,
`tags` and `year`. -/
structure Entry where
  resultType : ResultType
  tags : List (List Char)
  year : Option Nat
deriving DecidableEq

/-- The `filters` component of a parsed query (search.ts 53-61). -/
structure Filters where
  types : List ResultType
  tags : List (List Char)
  yearMin : Option Nat
  yearMax : Option Nat

/-- Embedding of `matchesFilters` (search.ts 551-577), keeping the source's
early-return order: type-set test, AND over filter tags, inclusive year
bounds where an absent year fails any bound. -/
def matchesFilters (entry : Entry) (f : Filters) : Bool :=
  if 0 < f.types.length && !(f.types.contains entry.resultType) then false
  else if f.tags.any (fun tg => !(entry.tags.contains tg)) then false
  else if (match f.yearMin with
           | some m => (match entry.year with
                        | none => true
                        | some y => decide (y < m))
           | none => false) then false
  else if (match f.yearMax with
           | some M => (match entry.year with
                        | none => true
                        | some y => decide (M < y))
           | none => false) then false
  else true

/-- Digit test for the model of the regular-expression class `\d`. -/
def isDigitCh (c : Char) : Bool := 48 ≤ c.toNat && c.toNat ≤ 57

/-- Numeric value of a digit string (the model of `Number(...)` on the
regex captures, which are all-digit strings). -/
def digitsToNat (s : List Char) : Nat :=
  s.foldl (fun n c => 10 * n + (c.toNat - 48)) 0

/-- Embedding of `unquoteToken` (search.ts 490-496): trim, then strip one
pair of surrounding double quotes when present and the token has length at
least two. -/
def unquote (s : List Char) : List Char :=
  let t := trimWs s
  if t.head? = some '"' ∧ t.getLast? = some '"' ∧ 2 ≤ t.length then
    (t.drop 1).dropLast
  else t

/-- The `{ min?, max? }` record returned by `parseYearFilter`. -/
structure YearRange where
  min : Option Nat
  max : Option Nat
deriving DecidableEq

/-- Model of the anchored capture `^(\d{4})$`: exactly four digits. -/
def fourDigits (l : List Char) : Option Nat :=
  if l.length = 4 && l.all isDigitCh then some (digitsToNat l) else none

/-- Model of the anchored regex `^(\d{4})-(\d{4})$` of `parseYearFilter`. -/
def matchRange (v : List Char) : Option (Nat × Nat) :=
  if v.length = 9 && v.getD 4 'x' = '-' then
    match fourDigits (v.take 4), fourDigits (v.drop 5) with
    | some s, some t => some (s, t)
    | _, _ => none
  else none

/-- Model of the anchored regex `^>=?(\d{4})$` of `parseYearFilter`: `>`
then an optional `=` then four digits. -/
def matchGte (v : List Char) : Option Nat :=
  match v with
  | [] => none
  | c :: rest =>
    if c = '>' then
      match rest with
      | [] => none
      | c2 :: rest2 => if c2 = '=' then fourDigits rest2 else fourDigits rest
    else none

/-- Model of the anchored regex `^<=?(\d{4})$` of `parseYearFilter`. -/
def matchLte (v : List Char) : Option Nat :=
  match v with
  | [] => none
  | c :: rest =>
    if c = '<' then
      match rest with
      | [] => none
      | c2 :: rest2 => if c2 = '=' then fourDigits rest2 else fourDigits rest
    else none

/-- Embedding of `parseYearFilter` (search.ts 516-549): unquote and trim the
value, then try the range form, the `>=`/`>` form, the `<=`/`<` form and the
exact form in the source's order. -/
def parseYearFilter (raw : List Char) : Option YearRange :=
  let value := trimWs (unquote raw)
  if value = [] then none
  else
    match matchRange value with
    | some (s, t) => some ⟨some (Nat.min s t), some (Nat.max s t)⟩
    | none =>
      match matchGte value with
      | some v => some ⟨some v, none⟩
      | none =>
        match matchLte value with
        | some v => some ⟨none, some v⟩
        | none =>
          match fourDigits value with
          | some v => some ⟨some v, some v⟩
          | none => none

/-- The `year:` branch of `parseStructuredQuery` (search.ts 453-469) applied
to one token value: a parsed min updates `yearMin` via `Math.max` (or seeds
it), a parsed max updates `yearMax` via `Math.min` (or seeds it); an
unparseable token is skipped. -/
def applyYearToken (st : Option Nat × Option Nat) (tok : List Char) :
    Option Nat × Option Nat :=
  match parseYearFilter tok with
  | none => st
  | some yr =>
    (match yr.min with
     | some m => some (match st.1 with | some cur => Nat.max cur m | none => m)
     | none => st.1,
     match yr.max with
     | some M => some (match st.2 with | some cur => Nat.min cur M | none => M)
     | none => st.2)

/-- The accumulated `(yearMin, yearMax)` of `parseStructuredQuery` over the
`year:` token values in source order, starting from both absent. -/
def foldYearTokens (toks : List (List Char)) : Option Nat × Option Nat :=
  toks.foldl applyYearToken (none, none)

/-- Maximum of two optional bounds (absent = no constraint). -/
def optMax : Option Nat → Option Nat → Option Nat
  | none, b => b
  | some a, none => some a
  | some a, some b => some (Nat.max a b)

/-- Minimum of two optional bounds (absent = no constraint). -/
def optMin : Option Nat → Option Nat → Option Nat
  | none, b => b
  | some a, none => some a
  | some a, some b => some (Nat.min a b)

/-- Maximum of a list of naturals, `none` on the empty list. -/
def listMax : List Nat → Option Nat
  | [] => none
  | n :: ns => optMax (some n) (listMax ns)

/-- Minimum of a list of naturals, `none` on the empty list. -/
def listMin : List Nat → Option Nat
  | [] => none
  | n :: ns => optMin (some n) (listMin ns)

/-- The minima contributed by a list of `year:` token values. -/
def minsOf (toks : List (List Char)) : List Nat :=
  toks.filterMap (fun tok => (parseYearFilter tok).bind (fun yr => yr.min))

/-- The maxima contributed by a list of `year:` token values. -/
def maxesOf (toks : List (List Char)) : List Nat :=
  toks.filterMap (fun tok => (parseYearFilter tok).bind (fun yr => yr.max))

/-- The session state of `SearchService` that `recordOpen` touches
(search.ts 69-70): the usage-count map (`get(id) || 0` modelled as a total
function) and the recent-activation queue. -/
structure SearchState where
  usageCounts : Nat → Nat
  recentItemIDs : List Nat

/-- Embedding of `SearchService.recordOpen` (search.ts 123-131): a falsy id
is a no-op; otherwise increment the usage count, remove the id from the
queue, prepend it and cap the queue at 80. -/
def recordOpen (itemID : Nat) (s : SearchState) : SearchState :=
  if itemID = 0 then s
  else
    { usageCounts := fun i =>
        if i = itemID then s.usageCounts i + 1 else s.usageCounts i,
      recentItemIDs := (itemID :: s.recentItemIDs.filter (fun i => i ≠ itemID)).take 80 }

/-- The fresh per-window session state: empty counts, empty queue. -/
def initSearchState : SearchState := ⟨fun _ => 0, []⟩

/-- A command of the registry as far as `run` reads it (search.ts
1154-1165): its id, its availability predicate evaluated against the live
run context (`isAvailable(...).enabled`), and its action, which either
completes or throws (modelled by `Except`). -/
structure Command (Ctx : Type) where
  id : String
  availableB : Ctx → Bool
  action : Ctx → Except String Unit

/-- The registry state `run` touches: the command table and the usage-count
map. -/
structure RegistryState (Ctx : Type) where
  commands : List (Command Ctx)
  usageCounts : String → Nat

/-- Embedding of `CommandRegistry.run` (search.ts 1215-1236): re-resolve the
command by id, re-check availability against the live context, execute; a
thrown exception is caught and reported as `false`; the usage count is
incremented only after a successful execution. -/
def runCommand {Ctx : Type} (commandId : String) (ctx : Ctx)
    (st : RegistryState Ctx) : Bool × RegistryState Ctx :=
  match st.commands.find? (fun c => c.id == commandId) with
  | none => (false, st)
  | some cmd =>
    if !cmd.availableB ctx then (false, st)
    else
      match cmd.action ctx with
      | Except.error _ => (false, st)
      | Except.ok _ =>
        (true,
         { st with
           usageCounts := fun i =>
             if i = cmd.id then st.usageCounts i + 1 else st.usageCounts i })

/-- An always-available command whose action succeeds. -/
def okCmd : Command Unit :=
  ⟨"ok-cmd", fun _ => true, fun _ => Except.ok ()⟩

/-- An always-available command whose action throws. -/
def badCmd : Command Unit :=
  ⟨"bad-cmd", fun _ => true, fun _ => Except.error "boom"⟩

/-- A command whose availability predicate reports disabled. -/
def offCmd : Command Unit :=
  ⟨"off-cmd", fun _ => false, fun _ => Except.ok ()⟩

/-- A small concrete registry over those three commands. -/
def wRegistry : RegistryState Unit :=
  ⟨[okCmd, badCmd, offCmd], fun _ => 0⟩

/-- The kind of one entry of the recent view: an open note tab, an open or
closed reader attachment, or a plain activated item. -/
inductive EKind where
  | note
  | attachment
  | plain
deriving DecidableEq

/-- One candidate entry of the recent view: its kind and item id. -/
structure REntry where
  kind : EKind
  itemID : Nat
deriving DecidableEq

/-- A palette result at the granularity claim C6 needs: which recency
source produced it and for which id (display metadata elided, as it is not
read by the dispatch the claim is about). -/
inductive PalResult where
  | history (query : List Char)
  | itemRes (id : Nat)
  | noteRes (id : Nat)
  | attachRes (id : Nat)
deriving DecidableEq

/-- The palette session state read by `buildRecentResults` (palette.ts
42-48, 570-643): recent searches, the reader ids open at the previous
check, the open tab entries and active tab id supplied by the host, the
recently-closed and recently-activated queues, the results limit, and the
host item lookup. -/
structure PaletteState where
  recentSearches : List (List Char)
  lastOpenReaderIDs : List Nat
  openTabEntries : List REntry
  activeTabItemID : Option Nat
  recentClosedAttachmentIDs : List Nat
  recentActivatedItemIDs : List Nat
  resultsLimit : Nat
  items : Nat → Option Item

/-- Embedding of `pushRecentClosed` (palette.ts 659-668): dedup, prepend,
cap at 10. -/
def pushRecentClosed (l : List Nat) (attachmentID : Nat) : List Nat :=
  (attachmentID :: l.filter (fun i => i ≠ attachmentID)).take 10

/-- Embedding of `updateRecentClosed` (palette.ts 645-657): every reader id
that was open at the previous check and is no longer open is pushed onto
the recently-closed queue. -/
def updatedRecentClosed (st : PaletteState) : List Nat :=
  let cur := (st.openTabEntries.filter (fun e => e.kind = EKind.attachment)).map
    (fun e => e.itemID)
  st.lastOpenReaderIDs.foldl
    (fun acc attachmentID =>
      if attachmentID ∈ cur then acc else pushRecentClosed acc attachmentID)
    st.recentClosedAttachmentIDs

/-- The entry-to-result step of `buildRecentResults` (palette.ts 630-641):
`createNoteResult`, `createAttachmentResult` or `createItemResult` guarded
by the host lookup and the record kind, as in palette.ts 750-839. -/
def entryToResult (st : PaletteState) (e : REntry) : Option PalResult :=
  match e.kind with
  | EKind.note =>
    match st.items e.itemID with
    | some it =>
      match it.kind with
      | ItemKind.note => some (PalResult.noteRes e.itemID)
      | _ => none
    | none => none
  | EKind.attachment =>
    match st.items e.itemID with
    | some it =>
      match it.kind with
      | ItemKind.attach _ => some (PalResult.attachRes e.itemID)
      | _ => none
    | none => none
  | EKind.plain =>
    match st.items e.itemID with
    | some it =>
      match it.kind with
      | ItemKind.regular => some (PalResult.itemRes e.itemID)
      | _ => none
    | none => none

/-- Embedding of `PaletteUI.buildRecentResults` (palette.ts 570-643):
history results from recent searches, then recently-open tabs (the JS
`slice(-n)` quirk for `n = 0` kept), recently-closed attachments and
recently-activated items, each under its computed sub-limit, mapped to
results through the host lookup and capped at the results limit. -/
def buildRecentResults (st : PaletteState) : List PalResult :=
  let recentClosedIDs := updatedRecentClosed st
  let activeID := st.activeTabItemID
  let openEntries := st.openTabEntries.filter (fun e => some e.itemID ≠ activeID)
  let limit := st.resultsLimit
  let historyLimit := Nat.min 3 (limit / 2)
  let recentOpenLimit := Nat.min 3 (limit - historyLimit)
  let recentClosedLimit := Nat.min 2 (limit - historyLimit - recentOpenLimit)
  let recentActivatedLimit := limit - historyLimit - recentOpenLimit - recentClosedLimit
  let historyResults := (st.recentSearches.take historyLimit).map PalResult.history
  let recentOpen :=
    (if recentOpenLimit = 0 then openEntries
     else openEntries.drop (openEntries.length - recentOpenLimit)).reverse
  let recentClosed :=
    ((recentClosedIDs.filter (fun i => some i ≠ activeID)).take recentClosedLimit).map
      (fun i => REntry.mk EKind.attachment i)
  let recentActivated :=
    ((st.recentActivatedItemIDs.filter (fun i => some i ≠ activeID)).take
        recentActivatedLimit).filterMap
      (fun i =>
        match st.items i with
        | none => none
        | some it =>
          match it.kind with
          | ItemKind.attach _ => some (REntry.mk EKind.attachment i)
          | _ => some (REntry.mk EKind.plain i))
  let results := (recentOpen ++ recentClosed ++ recentActivated).filterMap
    (entryToResult st)
  (historyResults ++ results).take limit

/-- Which view `updateResults` renders. -/
inductive DisplayMode where
  | recent
  | searchView
  | commandView
deriving DecidableEq

/-- Embedding of `PaletteUI.parseQuery` (palette.ts 990-1005): a `>` after
leading whitespace switches to command mode with the rest trimmed;
otherwise the trimmed raw query is the search text. -/
def parseQueryMode (raw : List Char) : Bool × List Char :=
  let ts := raw.dropWhile isWs
  match ts with
  | '>' :: rest => (true, trimWs rest)
  | _ => (false, trimWs raw)

/-- The dispatch of `PaletteUI.updateResults` (palette.ts 151-183): an empty
non-command query renders the recent view from `buildRecentResults` and
never consults the search service; otherwise the command search or the
index search runs on the query text. -/
def updateResultsModel (raw : List Char) (st : PaletteState)
    (searchFn : List Char → List PalResult)
    (commandFn : List Char → List PalResult) : DisplayMode × List PalResult :=
  let pq := parseQueryMode raw
  if pq.1 = false ∧ pq.2 = [] then (DisplayMode.recent, buildRecentResults st)
  else if pq.1 = true then (DisplayMode.commandView, commandFn pq.2)
  else (DisplayMode.searchView, searchFn pq.2)

/-- A palette state with one recent search and an otherwise empty session. -/
def wPalette : PaletteState :=
  { recentSearches := [['a']], lastOpenReaderIDs := [], openTabEntries := [],
    activeTabItemID := none, recentClosedAttachmentIDs := [],
    recentActivatedItemIDs := [], resultsLimit := 20, items := fun _ => none }

/-- A trivial search/command function for the C6 witness. -/
def wFn : List Char → List PalResult := fun _ => []

theorem findFrom_eq_none {c : Char} : ∀ {l : List Char}, findFrom c l = none ↔ c ∉ l := by
  intro l
  induction l with
  | nil => simp [findFrom]
  | cons x xs ih =>
    simp only [findFrom, List.mem_cons]
    by_cases hx : x = c
    · simp [hx]
    · cases hfx : findFrom c xs with
      | none =>
        have hnx : c ∉ xs := ih.mp hfx
        simp [if_neg hx, hnx]
        exact fun h => hx h.symm
      | some j =>
        have hmem : c ∈ xs := by
          by_contra hno
          rw [ih.mpr hno] at hfx
          cases hfx
        simp [if_neg hx, hmem]

theorem findFrom_drop {c : Char} : ∀ {l : List Char} {i : Nat},
    findFrom c l = some i → l.drop i = c :: l.drop (i + 1) := by
  intro l
  induction l with
  | nil => intro i h; simp [findFrom] at h
  | cons x xs ih =>
    intro i h
    by_cases hx : x = c
    · simp [findFrom, hx] at h
      subst h
      simp [hx]
    · simp only [findFrom, if_neg hx] at h
      cases hfx : findFrom c xs with
      | none => simp [hfx] at h
      | some j =>
        simp [hfx] at h
        subst h
        simpa using ih hfx

theorem greedy_step {c : Char} {qs : List Char} : ∀ {l : List Char} {i : Nat},
    List.Sublist (c :: qs) l → findFrom c l = some i → List.Sublist qs (l.drop (i + 1)) := by
  intro l
  induction l with
  | nil => intro i hsub _; cases hsub
  | cons x xs ih =>
    intro i hsub hf
    by_cases hx : x = c
    · simp [findFrom, hx] at hf
      subst hf
      simp only [List.drop_succ_cons, List.drop_zero]
      cases hsub with
      | cons _ h => exact (List.sublist_cons_self c qs).trans (hx ▸ h)
      | cons₂ _ h => exact h
    · simp only [findFrom, if_neg hx] at hf
      cases hfx : findFrom c xs with
      | none => simp [hfx] at hf
      | some j =>
        simp [hfx] at hf
        subst hf
        have hsub' : List.Sublist (c :: qs) xs := by
          cases hsub with
          | cons _ h => exact h
          | cons₂ _ h => exact absurd rfl hx
        simpa using ih hsub' hfx

theorem fuzzyLoop_isSome {t : List Char} : ∀ (q : List Char) (tIndex : Nat) (lm : Int)
    (consec : Nat) (score : Int),
    (fuzzyLoop t q tIndex lm consec score).isSome = true ↔
      List.Sublist q (t.drop tIndex) := by
  intro q
  induction q with
  | nil =>
    intro tIndex lm consec score
    simp [fuzzyLoop, List.nil_sublist]
  | cons c qs ih =>
    intro tIndex lm consec score
    simp only [fuzzyLoop]
    cases hf : findFrom c (t.drop tIndex) with
    | none =>
      simp only [Option.isSome_none, Bool.false_eq_true, false_iff]
      intro hsub
      exact (findFrom_eq_none.mp hf) (hsub.mem (List.mem_cons_self c qs))
    | some off =>
      simp only []
      rw [ih]
      have hdd : (t.drop tIndex).drop (off + 1) = t.drop (tIndex + off + 1) := by
        rw [List.drop_drop, Nat.add_assoc]
      have hsplit := findFrom_drop hf
      constructor
      · intro hqs
        have h1 : List.Sublist (c :: qs) (c :: t.drop (tIndex + off + 1)) :=
          List.Sublist.cons₂ c hqs
        have h2 : List.Sublist (c :: t.drop (tIndex + off + 1)) (t.drop tIndex) := by
          have hjoin : (t.drop tIndex).take off ++ (c :: t.drop (tIndex + off + 1)) =
              t.drop tIndex := by
            rw [← hdd, ← hsplit, List.take_append_drop]
          rw [← hjoin]
          exact List.sublist_append_right _ _
        exact h1.trans h2
      · intro hsub
        have hg := greedy_step hsub hf
        rwa [hdd] at hg

theorem fuzzyLoop_ge {t : List Char} : ∀ (q : List Char) (tIndex : Nat) (lm : Int)
    (consec : Nat) (score s : Int),
    fuzzyLoop t q tIndex lm consec score = some s → score + q.length ≤ s := by
  intro q
  induction q with
  | nil =>
    intro tIndex lm consec score s h
    simp [fuzzyLoop] at h
    simp [← h]
  | cons c qs ih =>
    intro tIndex lm consec score s h
    simp only [fuzzyLoop] at h
    cases hf : findFrom c (t.drop tIndex) with
    | none => rw [hf] at h; cases h
    | some off =>
      rw [hf] at h
      simp only [] at h
      have hrec := ih _ _ _ _ _ h
      have hlen : ((c :: qs).length : Int) = (qs.length : Int) + 1 := by
        simp
      rw [hlen]
      split_ifs at hrec with h1 h2 <;> omega

/-- C1 (amended): for every query whose normalization is nonempty, if the
normalized query is an in-order subsequence of the normalized haystack then
`fuzzyScore` is positive, and otherwise it is negative.  (The claim as
stated fails for the empty query, whose normalization is a subsequence of
everything yet scores `-1`; see the counterexample.) -/
theorem C1_fuzzyScore_subsequence (query text : List Char) (hq : normalize query ≠ []) :
    (List.Sublist (normalize query) (normalize text) → 0 < fuzzyScore query text) ∧
    (¬ List.Sublist (normalize query) (normalize text) → fuzzyScore query text < 0) := by
  constructor
  · intro hsub
    have ht : normalize text ≠ [] := by
      intro h0
      rw [h0] at hsub
      exact hq (List.sublist_nil.mp hsub)
    have hcond : ¬(normalize query = [] ∨ normalize text = []) := by
      simp [hq, ht]
    have hs : (fuzzyLoop (normalize text) (normalize query) 0 (-1) 0 0).isSome = true := by
      rw [fuzzyLoop_isSome]
      simpa using hsub
    obtain ⟨s, hsome⟩ := Option.isSome_iff_exists.mp hs
    have hge := fuzzyLoop_ge (t := normalize text) (normalize query) 0 (-1) 0 0 s hsome
    have hlen : 1 ≤ ((normalize query).length : Int) := by
      have : normalize query ≠ [] := hq
      have hpos : 0 < (normalize query).length := List.length_pos.mpr this
      omega
    unfold fuzzyScore
    rw [if_neg hcond, hsome]
    have hmax : (0 : Int) ≤ max 0 (10 - (((normalize text).length : Int) - ((normalize query).length : Int))) :=
      le_max_left _ _
    by_cases hc : containsSub (normalize query) (normalize text) = true
    · simp only [hc, if_true]
      omega
    · simp only [hc, if_false]
      omega
  · intro hnsub
    by_cases ht : normalize text = []
    · unfold fuzzyScore
      rw [if_pos (by simp [ht])]
      norm_num
    · have hnone : fuzzyLoop (normalize text) (normalize query) 0 (-1) 0 0 = none := by
        cases hfl : fuzzyLoop (normalize text) (normalize query) 0 (-1) 0 0 with
        | none => rfl
        | some s =>
          have : List.Sublist (normalize query) ((normalize text).drop 0) :=
            (fuzzyLoop_isSome _ _ _ _ _).mp (by rw [hfl]; rfl)
          simp at this
          exact absurd this hnsub
      unfold fuzzyScore
      rw [if_neg (by simp [hq, ht]), hnone]
      norm_num

theorem fuzzyLoop_eq_runScore {t : List Char} : ∀ (q : List Char) (tIndex : Nat)
    (lm : Int) (consec : Nat) (score : Int),
    fuzzyLoop t q tIndex lm consec score =
      (greedyPositions t q tIndex).map (fun ps => score + runScore t ps lm consec) := by
  intro q
  induction q with
  | nil =>
    intro tIndex lm consec score
    simp [fuzzyLoop, greedyPositions, runScore]
  | cons c qs ih =>
    intro tIndex lm consec score
    simp only [fuzzyLoop, greedyPositions]
    cases hf : findFrom c (t.drop tIndex) with
    | none => rfl
    | some off =>
      simp only [ih, Option.map_map]
      cases hgp : greedyPositions t qs (tIndex + off + 1) with
      | none => simp
      | some ps =>
        simp only [Option.map_some', Option.some.injEq, Function.comp_apply, runScore]
        split_ifs with h1 h2 h2 <;> ring

/-- C2 (amended): on a successful match `fuzzyScore` returns exactly the
accumulation in which each matched character contributes `5 + runLength`
when it is immediately after the previous match and the `+1` baseline
otherwise (the consecutive bonus replaces the baseline, it is not added on
top of it), plus `+3` at position 0 or after a boundary character, plus
`+8` when the normalized query is a substring of the normalized haystack,
plus `max(0, 10 - (haystackLength - queryLength))`. -/
theorem C2_fuzzyScore_accumulation (query text : List Char) :
    fuzzyScore query text = specFuzzyScore query text := by
  unfold fuzzyScore specFuzzyScore
  by_cases h : normalize query = [] ∨ normalize text = []
  · rw [if_pos h, if_pos h]
  · rw [if_neg h, if_neg h]
    rw [fuzzyLoop_eq_runScore]
    cases hgp : greedyPositions (normalize text) (normalize query) 0 with
    | none => rfl
    | some ps =>
      simp only [Option.map_some']
      by_cases hc : containsSub (normalize query) (normalize text) = true
      · simp only [hc, if_true]; ring
      · simp only [hc, Bool.false_eq_true, if_false]; ring

theorem mem_entriesFor_id {parents : List Nat} {it : Item} {e : IndexEntry}
    (h : e ∈ entriesFor parents it) : e.id = it.id := by
  obtain ⟨iid, ik, ip⟩ := it
  cases ik with
  | regular =>
    by_cases hp : iid ∈ parents
    · simp [entriesFor, hp] at h
    · simp [entriesFor, hp] at h
      simp [h]
  | note =>
    simp [entriesFor] at h
    simp [h]
  | attach d =>
    by_cases hs : isSearchableAttachment ⟨iid, ItemKind.attach d, ip⟩ = true
    · simp [entriesFor, hs] at h
      simp [h]
    · simp [entriesFor, hs] at h

theorem cnt_append (y : Nat) (a b : List IndexEntry) :
    cnt y (a ++ b) = cnt y a + cnt y b := by
  unfold cnt
  rw [List.map_append, List.count_append]

theorem cnt_entriesFor_ne {parents : List Nat} {it : Item} {y : Nat}
    (h : it.id ≠ y) : cnt y (entriesFor parents it) = 0 := by
  unfold cnt
  rw [List.count_eq_zero]
  intro hmem
  rw [List.mem_map] at hmem
  obtain ⟨e, he, hid⟩ := hmem
  exact h ((mem_entriesFor_id he) ▸ hid)

theorem cnt_passTwo_zero {parents : List Nat} {y : Nat} :
    ∀ {lib : List Item}, (∀ it ∈ lib, it.id ≠ y) → cnt y (passTwo parents lib) = 0 := by
  intro lib
  induction lib with
  | nil => intro _; rfl
  | cons it rest ih =>
    intro h
    rw [passTwo, cnt_append, cnt_entriesFor_ne (h it (List.mem_cons_self _ _)),
      ih (fun a ha => h a (List.mem_cons_of_mem _ ha))]

theorem cnt_passTwo_unique {parents : List Nat} {x : Item} :
    ∀ {lib : List Item}, x ∈ lib → (lib.map (fun it => it.id)).Nodup →
      cnt x.id (passTwo parents lib) = cnt x.id (entriesFor parents x) := by
  intro lib
  induction lib with
  | nil => intro h; cases h
  | cons it rest ih =>
    intro hx hnd
    rw [List.map_cons, List.nodup_cons] at hnd
    rw [passTwo, cnt_append]
    rcases List.mem_cons.mp hx with heq | hmem
    · subst heq
      have hz : cnt x.id (passTwo parents rest) = 0 := by
        apply cnt_passTwo_zero
        intro a ha hida
        exact hnd.1 (hida ▸ List.mem_map_of_mem (fun it => it.id) ha)
      rw [hz]
      omega
    · have hne : it.id ≠ x.id := by
        intro he
        exact hnd.1 (he ▸ List.mem_map_of_mem (fun it => it.id) hmem)
      rw [cnt_entriesFor_ne hne, ih hmem hnd.2]
      omega

theorem cnt_buildIndexAux_zero {y : Nat} :
    ∀ {libs : List (List Item)} {acc : List Nat},
      (∀ it ∈ allItems libs, it.id ≠ y) → cnt y (buildIndexAux libs acc) = 0 := by
  intro libs
  induction libs with
  | nil => intro acc _; rfl
  | cons lib rest ih =>
    intro acc h
    rw [buildIndexAux, cnt_append]
    have h1 : ∀ it ∈ lib, it.id ≠ y := fun it hit =>
      h it (by simp [allItems, List.mem_flatten]; exact Or.inl hit)
    have h2 : ∀ it ∈ allItems rest, it.id ≠ y := fun it hit =>
      h it (by simp [allItems] at hit ⊢; exact Or.inr hit)
    rw [cnt_passTwo_zero h1, ih h2]

theorem mem_passOne {p : Nat} {acc : List Nat} {lib : List Item} :
    p ∈ passOne acc lib ↔
      p ∈ acc ∨ ∃ a ∈ lib, isSearchableAttachment a = true ∧ a.parent = some p := by
  unfold passOne
  rw [List.mem_append, List.mem_filterMap]
  constructor
  · rintro (h | ⟨a, ha, hpk⟩)
    · exact Or.inl h
    · refine Or.inr ⟨a, ha, ?_⟩
      unfold parentKeyOf at hpk
      by_cases hs : isSearchableAttachment a = true
      · rw [if_pos hs] at hpk
        exact ⟨hs, hpk⟩
      · rw [if_neg hs] at hpk
        cases hpk
  · rintro (h | ⟨a, ha, hs, hp⟩)
    · exact Or.inl h
    · refine Or.inr ⟨a, ha, ?_⟩
      unfold parentKeyOf
      rw [if_pos hs, hp]

theorem nodup_head_tail {lib : List Item} {rest : List (List Item)}
    (hnd : ((allItems (lib :: rest)).map (fun it => it.id)).Nodup) :
    (lib.map (fun it => it.id)).Nodup ∧
    ((allItems rest).map (fun it => it.id)).Nodup ∧
    (∀ x ∈ lib, ∀ y ∈ allItems rest, x.id ≠ y.id) := by
  have hflat : allItems (lib :: rest) = lib ++ allItems rest := by
    simp [allItems]
  rw [hflat, List.map_append, List.nodup_append] at hnd
  refine ⟨hnd.1, hnd.2.1, ?_⟩
  intro x hx y hy he
  exact hnd.2.2 (List.mem_map_of_mem _ hx) (he ▸ List.mem_map_of_mem _ hy)

theorem suppress_aux :
    ∀ (libs : List (List Item)) (acc : List Nat) (x : Item),
      ((allItems libs).map (fun it => it.id)).Nodup →
      (∃ lib ∈ libs, x ∈ lib ∧
        ∃ a ∈ lib, isSearchableAttachment a = true ∧ a.parent = some x.id) →
      x.kind = ItemKind.regular →
      cnt x.id (buildIndexAux libs acc) = 0 := by
  intro libs
  induction libs with
  | nil =>
    intro acc x _ h _
    obtain ⟨lib, hl, _⟩ := h
    cases hl
  | cons lib rest ih =>
    intro acc x hnd hloc hreg
    obtain ⟨hnd1, hnd2, hdisj⟩ := nodup_head_tail hnd
    rw [buildIndexAux, cnt_append]
    obtain ⟨lib0, hlib0, hxl, a, hal, hsa, hpa⟩ := hloc
    rcases List.mem_cons.mp hlib0 with heq | hrest
    · subst heq
      have hmemp : x.id ∈ passOne acc lib0 :=
        mem_passOne.mpr (Or.inr ⟨a, hal, hsa, hpa⟩)
      have h1 : cnt x.id (passTwo (passOne acc lib0) lib0) = 0 := by
        rw [cnt_passTwo_unique hxl hnd1]
        obtain ⟨iid, ik, ip⟩ := x
        simp only at hreg hmemp
        subst hreg
        simp [entriesFor, hmemp, cnt]
      have h2 : cnt x.id (buildIndexAux rest (passOne acc lib0)) = 0 :=
        cnt_buildIndexAux_zero (fun it hit => (hdisj x hxl it hit).symm)
      rw [h1, h2]
    · have h1 : cnt x.id (passTwo (passOne acc lib) lib) = 0 := by
        apply cnt_passTwo_zero
        intro it hit
        have hxall : x ∈ allItems rest := by
          simp only [allItems, List.mem_flatten]
          exact ⟨lib0, hrest, hxl⟩
        exact hdisj it hit x hxall
      have h2 : cnt x.id (buildIndexAux rest (passOne acc lib)) = 0 :=
        ih _ x hnd2 ⟨lib0, hrest, hxl, a, hal, hsa, hpa⟩ hreg
      rw [h1, h2]

theorem one_entry_aux :
    ∀ (libs : List (List Item)) (acc : List Nat) (x : Item),
      ((allItems libs).map (fun it => it.id)).Nodup →
      (∃ lib ∈ libs, x ∈ lib) →
      (x.kind = ItemKind.regular →
        (∀ a ∈ allItems libs,
          ¬(isSearchableAttachment a = true ∧ a.parent = some x.id)) ∧ x.id ∉ acc) →
      (∀ d, x.kind = ItemKind.attach d → isSearchableAttachment x = true) →
      cnt x.id (buildIndexAux libs acc) = 1 := by
  intro libs
  induction libs with
  | nil =>
    intro acc x _ h _ _
    obtain ⟨lib, hl, _⟩ := h
    cases hl
  | cons lib rest ih =>
    intro acc x hnd hloc hreg hatt
    obtain ⟨hnd1, hnd2, hdisj⟩ := nodup_head_tail hnd
    rw [buildIndexAux, cnt_append]
    obtain ⟨lib0, hlib0, hxl⟩ := hloc
    rcases List.mem_cons.mp hlib0 with heq | hrest
    · subst heq
      have h2 : cnt x.id (buildIndexAux rest (passOne acc lib0)) = 0 :=
        cnt_buildIndexAux_zero (fun it hit => (hdisj x hxl it hit).symm)
      have h1 : cnt x.id (passTwo (passOne acc lib0) lib0) = 1 := by
        rw [cnt_passTwo_unique hxl hnd1]
        obtain ⟨iid, ik, ip⟩ := x
        cases ik with
        | regular =>
          have hr := hreg rfl
          have hnp : iid ∉ passOne acc lib0 := by
            intro hmem
            rcases mem_passOne.mp hmem with hacc | ⟨a, hal, hsa, hpa⟩
            · exact hr.2 hacc
            · have hamem : a ∈ allItems (lib0 :: rest) := by
                simp only [allItems, List.mem_flatten]
                exact ⟨lib0, List.mem_cons_self _ _, hal⟩
              exact hr.1 a hamem ⟨hsa, hpa⟩
          simp [entriesFor, hnp, cnt]
        | note => simp [entriesFor, cnt]
        | attach d =>
          have hs := hatt d rfl
          simp [entriesFor, hs, cnt]
      rw [h1, h2]
    · have h1 : cnt x.id (passTwo (passOne acc lib) lib) = 0 := by
        apply cnt_passTwo_zero
        intro it hit
        have hxall : x ∈ allItems rest := by
          simp only [allItems, List.mem_flatten]
          exact ⟨lib0, hrest, hxl⟩
        exact hdisj it hit x hxall
      have h2 : cnt x.id (buildIndexAux rest (passOne acc lib)) = 1 := by
        apply ih _ x hnd2 ⟨lib0, hrest, hxl⟩ _ hatt
        intro hr
        have hglob := hreg hr
        constructor
        · intro a ha
          have hamem : a ∈ allItems (lib :: rest) := by
            simp only [allItems, List.mem_flatten] at ha ⊢
            obtain ⟨l, hl, hal⟩ := ha
            exact ⟨l, List.mem_cons_of_mem _ hl, hal⟩
          exact hglob.1 a hamem
        · intro hmem
          rcases mem_passOne.mp hmem with hacc | ⟨a, hal, hsa, hpa⟩
          · exact hglob.2 hacc
          · have hamem : a ∈ allItems (lib :: rest) := by
              simp only [allItems, List.mem_flatten]
              exact ⟨lib, List.mem_cons_self _ _, hal⟩
            exact hglob.1 a hamem ⟨hsa, hpa⟩
      rw [h1, h2]

/-- C9 (amended): an attachment is searchable iff it is not an annotation
and not an embedded image, and it is a file attachment OR a web attachment
OR has a content type.  (The claim's conjunction of "file or web" with
"has a content type" does not match the source's fall-through; see the
counterexample.) -/
theorem C9_searchable_amended (it : Item) :
    isSearchableAttachment it = amendedSearchable it := by
  unfold isSearchableAttachment amendedSearchable
  cases hk : it.kind with
  | regular => rfl
  | note => rfl
  | attach d =>
    cases d with
    | mk a e f w c => cases a <;> cases e <;> cases f <;> cases w <;> cases c <;> rfl

/-- C3: over a corpus with distinct record ids in which an attachment and
its parent live in the same library (as in Zotero), the index contains no
entry for a regular item owning a searchable attachment, and every other
eligible record (regular item without searchable attachment, note,
searchable attachment) yields exactly one index entry. -/
theorem C3_buildIndex_suppression (libs : List (List Item))
    (hnodup : ((allItems libs).map (fun it => it.id)).Nodup)
    (hsame : ∀ lib ∈ libs, ∀ r ∈ lib, ownsSearchable libs r →
      ∃ a ∈ lib, isSearchableAttachment a = true ∧ a.parent = some r.id) :
    (∀ lib ∈ libs, ∀ r ∈ lib, r.kind = ItemKind.regular → ownsSearchable libs r →
      cnt r.id (buildIndex libs) = 0) ∧
    (∀ lib ∈ libs, ∀ x ∈ lib, eligibleItem libs x →
      cnt x.id (buildIndex libs) = 1) := by
  constructor
  · intro lib hlib r hr hreg hown
    obtain ⟨a, hal, hsa, hpa⟩ := hsame lib hlib r hr hown
    exact suppress_aux libs [] r hnodup ⟨lib, hlib, hr, a, hal, hsa, hpa⟩ hreg
  · intro lib hlib x hx helig
    apply one_entry_aux libs [] x hnodup ⟨lib, hlib, hx⟩
    · intro hreg
      refine ⟨?_, List.not_mem_nil _⟩
      intro a ha hcontra
      rcases helig with ⟨_, hnown⟩ | hnote | hatt
      · exact hnown ⟨a, ha, hcontra.1, hcontra.2⟩
      · rw [hreg] at hnote
        simp at hnote
      · simp [isSearchableAttachment, hreg] at hatt
    · intro d hd
      rcases helig with ⟨hr, _⟩ | hnote | hatt
      · rw [hd] at hr
        simp at hr
      · rw [hd] at hnote
        simp at hnote
      · exact hatt

/-- C4: an entry passes `matchesFilters` iff its result type is in the type
set when that set is nonempty, its tags contain every filter tag (AND
semantics), and its year satisfies the inclusive bounds, where an absent
year fails any bound that is set. -/
theorem C4_matchesFilters_iff (entry : Entry) (f : Filters) :
    matchesFilters entry f = true ↔
      ((f.types ≠ [] → entry.resultType ∈ f.types) ∧
       (∀ tg ∈ f.tags, tg ∈ entry.tags) ∧
       (∀ m, f.yearMin = some m → ∃ y, entry.year = some y ∧ m ≤ y) ∧
       (∀ M, f.yearMax = some M → ∃ y, entry.year = some y ∧ y ≤ M)) := by
  unfold matchesFilters
  split_ifs with h1 h2 h3 h4
  · simp only [Bool.false_eq_true, false_iff]
    intro hc
    rw [Bool.and_eq_true] at h1
    have hne : f.types ≠ [] := by
      intro h0
      rw [h0] at h1
      simp at h1
    have := hc.1 hne
    rw [Bool.not_eq_eq_eq_not] at h1
    simp [List.contains] at h1
    exact h1.2 (by simpa using this)
  · simp only [Bool.false_eq_true, false_iff]
    intro hc
    rw [List.any_eq_true] at h2
    obtain ⟨tg, htg, hmiss⟩ := h2
    have := hc.2.1 tg htg
    simp at hmiss
    exact hmiss (by simpa using this)
  · simp only [Bool.false_eq_true, false_iff]
    intro hc
    cases hmin : f.yearMin with
    | none => rw [hmin] at h3; simp at h3
    | some m =>
      rw [hmin] at h3
      obtain ⟨y, hy, hle⟩ := hc.2.2.1 m hmin
      rw [hy] at h3
      simp at h3
      omega
  · simp only [Bool.false_eq_true, false_iff]
    intro hc
    cases hmax : f.yearMax with
    | none => rw [hmax] at h4; simp at h4
    | some M =>
      rw [hmax] at h4
      obtain ⟨y, hy, hle⟩ := hc.2.2.2 M hmax
      rw [hy] at h4
      simp at h4
      omega
  · simp only [true_iff]
    simp at h1 h2 h3 h4
    refine ⟨?_, h2, ?_, ?_⟩
    · intro hne
      exact h1 (List.length_pos.mpr hne)
    · intro m hm
      rw [hm] at h3
      cases hy : entry.year with
      | none => rw [hy] at h3; cases h3
      | some y =>
        rw [hy] at h3
        simp at h3
        exact ⟨y, rfl, h3⟩
    · intro M hM
      rw [hM] at h4
      cases hy : entry.year with
      | none => rw [hy] at h4; cases h4
      | some y =>
        rw [hy] at h4
        simp at h4
        exact ⟨y, rfl, h4⟩

theorem matchGte_cons (c : Char) (rest : List Char) :
    matchGte (c :: rest) =
      if c = '>' then
        match rest with
        | [] => none
        | c2 :: rest2 => if c2 = '=' then fourDigits rest2 else fourDigits rest
      else none := rfl

theorem matchLte_cons (c : Char) (rest : List Char) :
    matchLte (c :: rest) =
      if c = '<' then
        match rest with
        | [] => none
        | c2 :: rest2 => if c2 = '=' then fourDigits rest2 else fourDigits rest
      else none := rfl

theorem digit_ne {c x : Char} (h : isDigitCh c = true) (hx : isDigitCh x = false) :
    c ≠ x := by
  rintro rfl
  rw [h] at hx
  cases hx

theorem digit_not_ws {c : Char} (h : isDigitCh c = true) : isWs c = false := by
  unfold isWs
  simp [digit_ne h (x := ' ') (by decide), digit_ne h (x := '\t') (by decide),
    digit_ne h (x := '\n') (by decide), digit_ne h (x := '\r') (by decide)]

theorem dropWhile_eq_self_of_not {p : Char → Bool} :
    ∀ {l : List Char}, (∀ c ∈ l, p c = false) → l.dropWhile p = l := by
  intro l h
  cases l with
  | nil => rfl
  | cons x xs =>
    rw [List.dropWhile_cons, if_neg]
    rw [h x (List.mem_cons_self _ _)]
    simp

theorem trimWs_eq_self {l : List Char} (h : ∀ c ∈ l, isWs c = false) :
    trimWs l = l := by
  unfold trimWs
  rw [dropWhile_eq_self_of_not h,
    dropWhile_eq_self_of_not (fun c hc => h c (List.mem_reverse.mp hc)),
    List.reverse_reverse]

theorem unquote_plain {l : List Char} (hw : ∀ c ∈ l, isWs c = false)
    (hq : l.head? ≠ some '"') : unquote l = l := by
  unfold unquote
  rw [trimWs_eq_self hw]
  rw [if_neg]
  intro hcond
  exact hq hcond.1

theorem fourDigits_inv {l : List Char} {v : Nat} (h : fourDigits l = some v) :
    l.length = 4 ∧ (∀ c ∈ l, isDigitCh c = true) ∧ v = digitsToNat l := by
  unfold fourDigits at h
  by_cases hc : (l.length = 4 && l.all isDigitCh) = true
  · rw [if_pos hc] at h
    rw [Bool.and_eq_true] at hc
    refine ⟨by simpa using hc.1, ?_, by simpa using h.symm⟩
    intro c hcm
    exact List.all_eq_true.mp hc.2 c hcm
  · rw [if_neg hc] at h
    cases h

theorem exists_of_length_four {l : List Char} (h : l.length = 4) :
    ∃ a b c d, l = [a, b, c, d] := by
  match l, h with
  | [a, b, c, d], _ => exact ⟨a, b, c, d, rfl⟩

theorem parseYearFilter_exact {l : List Char} {v : Nat} (h : fourDigits l = some v) :
    parseYearFilter l = some ⟨some v, some v⟩ := by
  obtain ⟨hlen, hdig, hv⟩ := fourDigits_inv h
  obtain ⟨a, b, c, d, rfl⟩ := exists_of_length_four hlen
  have hda : isDigitCh a = true := hdig a (by simp)
  have hagt : a ≠ '>' := digit_ne hda (show isDigitCh '>' = false by decide)
  have halt : a ≠ '<' := digit_ne hda (show isDigitCh '<' = false by decide)
  have hw : ∀ x ∈ [a, b, c, d], isWs x = false :=
    fun x hx => digit_not_ws (hdig x hx)
  have hq : ([a, b, c, d] : List Char).head? ≠ some '"' := by
    intro hx
    rw [List.head?_cons, Option.some.injEq] at hx
    exact digit_ne hda (show isDigitCh '"' = false by decide) hx
  unfold parseYearFilter
  rw [unquote_plain hw hq, trimWs_eq_self hw]
  rw [if_neg (by simp)]
  have hr : matchRange [a, b, c, d] = none := by
    unfold matchRange
    rw [if_neg (by simp)]
  have hg : matchGte [a, b, c, d] = none := by
    rw [matchGte_cons, if_neg hagt]
  have hl : matchLte [a, b, c, d] = none := by
    rw [matchLte_cons, if_neg halt]
  rw [hr, hg, hl, h]

theorem parseYearFilter_lower {l : List Char} {v : Nat} (h : fourDigits l = some v) :
    parseYearFilter ('>' :: l) = some ⟨some v, none⟩ ∧
    parseYearFilter ('>' :: '=' :: l) = some ⟨some v, none⟩ := by
  obtain ⟨hlen, hdig, hv⟩ := fourDigits_inv h
  obtain ⟨a, b, c, d, rfl⟩ := exists_of_length_four hlen
  have hda : isDigitCh a = true := hdig a (by simp)
  have hane : a ≠ '=' := digit_ne hda (show isDigitCh '=' = false by decide)
  have hw1 : ∀ x ∈ ('>' :: [a, b, c, d] : List Char), isWs x = false := by
    intro x hx
    rcases List.mem_cons.mp hx with rfl | hx'
    · decide
    · exact digit_not_ws (hdig x hx')
  have hw2 : ∀ x ∈ ('>' :: '=' :: [a, b, c, d] : List Char), isWs x = false := by
    intro x hx
    rcases List.mem_cons.mp hx with rfl | hx'
    · decide
    rcases List.mem_cons.mp hx' with rfl | hx''
    · decide
    · exact digit_not_ws (hdig x hx'')
  constructor
  · unfold parseYearFilter
    rw [unquote_plain hw1 (by simp), trimWs_eq_self hw1]
    rw [if_neg (by simp)]
    have hr : matchRange ('>' :: [a, b, c, d]) = none := by
      unfold matchRange
      rw [if_neg (by simp)]
    have hg : matchGte ('>' :: [a, b, c, d]) = some v := by
      rw [matchGte_cons, if_pos rfl]
      show (if a = '=' then fourDigits [b, c, d] else fourDigits [a, b, c, d]) = some v
      rw [if_neg hane, h]
    rw [hr, hg]
  · unfold parseYearFilter
    rw [unquote_plain hw2 (by simp), trimWs_eq_self hw2]
    rw [if_neg (by simp)]
    have hr : matchRange ('>' :: '=' :: [a, b, c, d]) = none := by
      unfold matchRange
      rw [if_neg (by simp)]
    have hg : matchGte ('>' :: '=' :: [a, b, c, d]) = some v := by
      rw [matchGte_cons, if_pos rfl]
      show (if '=' = '=' then fourDigits [a, b, c, d] else fourDigits ('=' :: [a, b, c, d])) = some v
      rw [if_pos rfl, h]
    rw [hr, hg]

theorem parseYearFilter_upper {l : List Char} {v : Nat} (h : fourDigits l = some v) :
    parseYearFilter ('<' :: l) = some ⟨none, some v⟩ ∧
    parseYearFilter ('<' :: '=' :: l) = some ⟨none, some v⟩ := by
  obtain ⟨hlen, hdig, hv⟩ := fourDigits_inv h
  obtain ⟨a, b, c, d, rfl⟩ := exists_of_length_four hlen
  have hda : isDigitCh a = true := hdig a (by simp)
  have hane : a ≠ '=' := digit_ne hda (show isDigitCh '=' = false by decide)
  have hw1 : ∀ x ∈ ('<' :: [a, b, c, d] : List Char), isWs x = false := by
    intro x hx
    rcases List.mem_cons.mp hx with rfl | hx'
    · decide
    · exact digit_not_ws (hdig x hx')
  have hw2 : ∀ x ∈ ('<' :: '=' :: [a, b, c, d] : List Char), isWs x = false := by
    intro x hx
    rcases List.mem_cons.mp hx with rfl | hx'
    · decide
    rcases List.mem_cons.mp hx' with rfl | hx''
    · decide
    · exact digit_not_ws (hdig x hx'')
  constructor
  · unfold parseYearFilter
    rw [unquote_plain hw1 (by simp), trimWs_eq_self hw1]
    rw [if_neg (by simp)]
    have hr : matchRange ('<' :: [a, b, c, d]) = none := by
      unfold matchRange
      rw [if_neg (by simp)]
    have hg : matchGte ('<' :: [a, b, c, d]) = none := by
      rw [matchGte_cons, if_neg (by decide)]
    have hl : matchLte ('<' :: [a, b, c, d]) = some v := by
      rw [matchLte_cons, if_pos rfl]
      show (if a = '=' then fourDigits [b, c, d] else fourDigits [a, b, c, d]) = some v
      rw [if_neg hane, h]
    rw [hr, hg, hl]
  · unfold parseYearFilter
    rw [unquote_plain hw2 (by simp), trimWs_eq_self hw2]
    rw [if_neg (by simp)]
    have hr : matchRange ('<' :: '=' :: [a, b, c, d]) = none := by
      unfold matchRange
      rw [if_neg (by simp)]
    have hg : matchGte ('<' :: '=' :: [a, b, c, d]) = none := by
      rw [matchGte_cons, if_neg (by decide)]
    have hl : matchLte ('<' :: '=' :: [a, b, c, d]) = some v := by
      rw [matchLte_cons, if_pos rfl]
      show (if '=' = '=' then fourDigits [a, b, c, d] else fourDigits ('=' :: [a, b, c, d])) = some v
      rw [if_pos rfl, h]
    rw [hr, hg, hl]

theorem parseYearFilter_range {l1 l2 : List Char} {s t : Nat}
    (h1 : fourDigits l1 = some s) (h2 : fourDigits l2 = some t) :
    parseYearFilter (l1 ++ '-' :: l2) = some ⟨some (Nat.min s t), some (Nat.max s t)⟩ := by
  obtain ⟨hlen1, hdig1, _⟩ := fourDigits_inv h1
  obtain ⟨hlen2, hdig2, _⟩ := fourDigits_inv h2
  obtain ⟨a, b, c, d, rfl⟩ := exists_of_length_four hlen1
  obtain ⟨e, f, g, k, rfl⟩ := exists_of_length_four hlen2
  have hw : ∀ x ∈ ([a, b, c, d] ++ '-' :: [e, f, g, k] : List Char), isWs x = false := by
    intro x hx
    simp only [List.mem_append, List.mem_cons] at hx
    rcases hx with hx' | hx'
    · exact digit_not_ws (hdig1 x (by simpa using hx'))
    rcases hx' with rfl | hx''
    · decide
    · exact digit_not_ws (hdig2 x (by simpa using hx''))
  have hq : (([a, b, c, d] ++ '-' :: [e, f, g, k] : List Char)).head? ≠ some '"' := by
    intro hx
    rw [List.cons_append, List.head?_cons, Option.some.injEq] at hx
    exact digit_ne (hdig1 a (by simp)) (show isDigitCh '"' = false by decide) hx
  unfold parseYearFilter
  rw [unquote_plain hw hq, trimWs_eq_self hw]
  rw [if_neg (by simp)]
  have hr : matchRange ([a, b, c, d] ++ '-' :: [e, f, g, k]) = some (s, t) := by
    unfold matchRange
    rw [if_pos (by simp)]
    have htake : (([a, b, c, d] ++ '-' :: [e, f, g, k] : List Char)).take 4 = [a, b, c, d] := by
      simp
    have hdrop : (([a, b, c, d] ++ '-' :: [e, f, g, k] : List Char)).drop 5 = [e, f, g, k] := by
      simp
    rw [htake, hdrop, h1, h2]
  rw [hr]

theorem optMax_assoc (a b c : Option Nat) :
    optMax (optMax a b) c = optMax a (optMax b c) := by
  cases a <;> cases b <;> cases c <;> simp [optMax, Nat.max_assoc]

theorem optMin_assoc (a b c : Option Nat) :
    optMin (optMin a b) c = optMin a (optMin b c) := by
  cases a <;> cases b <;> cases c <;> simp [optMin, Nat.min_assoc]

theorem foldYear_fst : ∀ (toks : List (List Char)) (st : Option Nat × Option Nat),
    (toks.foldl applyYearToken st).1 = optMax st.1 (listMax (minsOf toks)) := by
  intro toks
  induction toks with
  | nil =>
    intro st
    cases h : st.1 <;> simp [minsOf, listMax, optMax, h]
  | cons tok toks ih =>
    intro st
    rw [List.foldl_cons, ih]
    cases hp : parseYearFilter tok with
    | none =>
      have hmins : minsOf (tok :: toks) = minsOf toks := by
        simp [minsOf, hp]
      rw [hmins]
      have happ : applyYearToken st tok = st := by
        unfold applyYearToken
        rw [hp]
      rw [happ]
    | some yr =>
      cases hm : yr.min with
      | none =>
        have hmins : minsOf (tok :: toks) = minsOf toks := by
          simp [minsOf, hp, hm]
        rw [hmins]
        have happ : (applyYearToken st tok).1 = st.1 := by
          simp only [applyYearToken, hp, hm]
        rw [happ]
      | some m =>
        have hmins : minsOf (tok :: toks) = m :: minsOf toks := by
          simp [minsOf, hp, hm]
        rw [hmins, listMax, ← optMax_assoc]
        have happ : (applyYearToken st tok).1 = optMax st.1 (some m) := by
          simp only [applyYearToken, hp, hm]
          cases hs : st.1 <;> simp [optMax]
        rw [happ]

theorem foldYear_snd : ∀ (toks : List (List Char)) (st : Option Nat × Option Nat),
    (toks.foldl applyYearToken st).2 = optMin st.2 (listMin (maxesOf toks)) := by
  intro toks
  induction toks with
  | nil =>
    intro st
    cases h : st.2 <;> simp [maxesOf, listMin, optMin, h]
  | cons tok toks ih =>
    intro st
    rw [List.foldl_cons, ih]
    cases hp : parseYearFilter tok with
    | none =>
      have hmaxes : maxesOf (tok :: toks) = maxesOf toks := by
        simp [maxesOf, hp]
      rw [hmaxes]
      have happ : applyYearToken st tok = st := by
        unfold applyYearToken
        rw [hp]
      rw [happ]
    | some yr =>
      cases hm : yr.max with
      | none =>
        have hmaxes : maxesOf (tok :: toks) = maxesOf toks := by
          simp [maxesOf, hp, hm]
        rw [hmaxes]
        have happ : (applyYearToken st tok).2 = st.2 := by
          simp only [applyYearToken, hp, hm]
        rw [happ]
      | some M =>
        have hmaxes : maxesOf (tok :: toks) = M :: maxesOf toks := by
          simp [maxesOf, hp, hm]
        rw [hmaxes, listMin, ← optMin_assoc]
        have happ : (applyYearToken st tok).2 = optMin st.2 (some M) := by
          simp only [applyYearToken, hp, hm]
          cases hs : st.2 <;> simp [optMin]
        rw [happ]

theorem emptyRange_matches_nothing (e : Entry) (m M : Nat) (h : M < m) :
    matchesFilters e ⟨[], [], some m, some M⟩ = false := by
  unfold matchesFilters
  cases hy : e.year with
  | none => simp [hy]
  | some y =>
    by_cases hlt : y < m
    · simp [hy, hlt]
    · have hMy : M < y := by omega
      simp [hy, hlt, hMy]

theorem recordOpen_step (s : SearchState) (id : Nat) (h : 0 < id) :
    (recordOpen id s).usageCounts id = s.usageCounts id + 1 ∧
    (recordOpen id s).recentItemIDs.head? = some id ∧
    (recordOpen id s).recentItemIDs.count id = 1 ∧
    (recordOpen id s).recentItemIDs.length ≤ 80 := by
  have hne : id ≠ 0 := Nat.pos_iff_ne_zero.mp h
  unfold recordOpen
  rw [if_neg hne]
  refine ⟨by simp, ?_, ?_, ?_⟩
  · rw [List.take_cons (by omega)]
    rfl
  · rw [List.take_cons (by omega)]
    rw [List.count_cons_self]
    have hzero : (s.recentItemIDs.filter (fun i => i ≠ id)).count id = 0 := by
      rw [List.count_eq_zero]
      intro hmem
      have := List.of_mem_filter hmem
      simp at this
    have hle := (List.take_sublist (80 - 1)
      (s.recentItemIDs.filter (fun i => i ≠ id))).count_le id
    omega
  · simp only [List.length_take]
    omega

theorem recordOpen_cap (ids : List Nat) :
    ((ids.foldl (fun s i => recordOpen i s) initSearchState).recentItemIDs).length ≤ 80 := by
  suffices h : ∀ (l : List Nat) (s : SearchState), s.recentItemIDs.length ≤ 80 →
      ((l.foldl (fun s i => recordOpen i s) s).recentItemIDs).length ≤ 80 by
    exact h ids initSearchState (by simp [initSearchState])
  intro l
  induction l with
  | nil => intro s hs; exact hs
  | cons i rest ih =>
    intro s hs
    rw [List.foldl_cons]
    apply ih
    unfold recordOpen
    by_cases hi : i = 0
    · rw [if_pos hi]; exact hs
    · rw [if_neg hi]
      simp [List.length_take]

theorem recordOpen_iterate (n : Nat) (id : Nat) (h : 0 < id) :
    ((recordOpen id)^[n] initSearchState).usageCounts id = n := by
  induction n with
  | zero => rfl
  | succ k ih =>
    rw [Function.iterate_succ_apply']
    simp [recordOpen, Nat.pos_iff_ne_zero.mp h, ih]

/-- C8: `CommandRegistry.run` re-resolves the command and re-checks its
availability; it returns `false` (state unchanged) for an unknown command,
an unavailable command, or an action that throws (the exception is caught,
never propagated); it returns `true` iff the resolved command is available
and its action completes, and exactly then the command's usage count is
incremented. -/
theorem C8_runCommand_spec {Ctx : Type} (commandId : String) (ctx : Ctx)
    (st : RegistryState Ctx) :
    (st.commands.find? (fun c => c.id == commandId) = none →
      runCommand commandId ctx st = (false, st)) ∧
    (∀ cmd, st.commands.find? (fun c => c.id == commandId) = some cmd →
      cmd.availableB ctx = false → runCommand commandId ctx st = (false, st)) ∧
    (∀ cmd e, st.commands.find? (fun c => c.id == commandId) = some cmd →
      cmd.availableB ctx = true → cmd.action ctx = Except.error e →
      runCommand commandId ctx st = (false, st)) ∧
    (∀ cmd, st.commands.find? (fun c => c.id == commandId) = some cmd →
      cmd.availableB ctx = true → cmd.action ctx = Except.ok () →
      (runCommand commandId ctx st).1 = true ∧
      (runCommand commandId ctx st).2.usageCounts cmd.id = st.usageCounts cmd.id + 1) ∧
    ((runCommand commandId ctx st).1 = true ↔
      ∃ cmd, st.commands.find? (fun c => c.id == commandId) = some cmd ∧
        cmd.availableB ctx = true ∧ cmd.action ctx = Except.ok ()) ∧
    (∀ sid, (runCommand commandId ctx st).2.usageCounts sid ≠ st.usageCounts sid →
      (runCommand commandId ctx st).1 = true) := by
  refine ⟨?_, ?_, ?_, ?_, ?_, ?_⟩
  · intro h
    unfold runCommand
    rw [h]
  · intro cmd hf hav
    unfold runCommand
    rw [hf]
    simp [hav]
  · intro cmd e hf hav hact
    unfold runCommand
    rw [hf]
    simp [hav, hact]
  · intro cmd hf hav hact
    unfold runCommand
    rw [hf]
    simp [hav, hact]
  · constructor
    · intro h
      cases hf : st.commands.find? (fun c => c.id == commandId) with
      | none =>
        have heq : runCommand commandId ctx st = (false, st) := by
          unfold runCommand
          rw [hf]
        rw [heq] at h
        cases h
      | some cmd =>
        by_cases hav : cmd.availableB ctx = true
        · cases hact : cmd.action ctx with
          | error e =>
            have heq : runCommand commandId ctx st = (false, st) := by
              unfold runCommand
              rw [hf]
              simp [hav, hact]
            rw [heq] at h
            cases h
          | ok u =>
            cases u
            exact ⟨cmd, rfl, hav, hact⟩
        · have hav' : cmd.availableB ctx = false := by
            simpa [Bool.not_eq_true] using hav
          have heq : runCommand commandId ctx st = (false, st) := by
            unfold runCommand
            rw [hf]
            simp [hav']
          rw [heq] at h
          cases h
    · rintro ⟨cmd, hf, hav, hact⟩
      unfold runCommand
      rw [hf]
      simp [hav, hact]
  · intro sid hne
    by_contra hfalse
    have heq : runCommand commandId ctx st = (false, st) := by
      cases hf : st.commands.find? (fun c => c.id == commandId) with
      | none =>
        unfold runCommand
        rw [hf]
      | some cmd =>
        by_cases hav : cmd.availableB ctx = true
        · cases hact : cmd.action ctx with
          | error e =>
            unfold runCommand
            rw [hf]
            simp [hav, hact]
          | ok u =>
            exfalso
            apply hfalse
            unfold runCommand
            rw [hf]
            cases u
            simp [hav, hact]
        · have hav' : cmd.availableB ctx = false := by
            simpa [Bool.not_eq_true] using hav
          unfold runCommand
          rw [hf]
          simp [hav']
    rw [heq] at hne
    exact hne rfl

theorem trimWs_nil_dropWhile {l : List Char} (h : trimWs l = []) :
    l.dropWhile isWs = [] := by
  unfold trimWs at h
  rw [List.reverse_eq_nil_iff, List.dropWhile_eq_nil_iff] at h
  cases hd : l.dropWhile isWs with
  | nil => rfl
  | cons x xs =>
    have hh := List.head?_dropWhile_not isWs l
    rw [hd] at hh
    have hx : isWs x = false := by simpa using hh
    have hx' : isWs x = true := h x (by rw [hd]; simp)
    rw [hx] at hx'
    cases hx'

theorem updateResults_empty (raw : List Char) (st : PaletteState)
    (searchFn commandFn : List Char → List PalResult)
    (h : trimWs raw = []) :
    updateResultsModel raw st searchFn commandFn =
      (DisplayMode.recent, buildRecentResults st) := by
  unfold updateResultsModel parseQueryMode
  have hd : raw.dropWhile isWs = [] := trimWs_nil_dropWhile h
  rw [hd]
  simp [h]

theorem buildRecentResults_ne_nil (st : PaletteState)
    (hs : st.recentSearches ≠ []) (hl : 2 ≤ st.resultsLimit) :
    buildRecentResults st ≠ [] := by
  unfold buildRecentResults
  intro hcontra
  rw [List.take_eq_nil_iff] at hcontra
  rcases hcontra with hlim | happ
  · omega
  · rw [List.append_eq_nil] at happ
    have hmap := happ.1
    rw [List.map_eq_nil_iff] at hmap
    rw [List.take_eq_nil_iff] at hmap
    rcases hmap with hlz | hsnil
    · have h1 : 1 ≤ Nat.min 3 (st.resultsLimit / 2) :=
        Nat.le_min.mpr ⟨by omega, by omega⟩
      omega
    · exact hs hsnil


/-- C5: the `year:` filter maps four digits to an exact range, a
`start-end` pair to the sorted pair independent of order, `>`/`>=` to the
same inclusive lower bound, `<`/`<=` to the same inclusive upper bound;
several `year:` tokens intersect (the resulting min is the maximum of the
token minima, the resulting max the minimum of the token maxima), and an
impossible range is permitted and matches no entry. -/
theorem C5_yearFilter_spec :
    (∀ (l : List Char) (v : Nat), fourDigits l = some v →
      parseYearFilter l = some ⟨some v, some v⟩) ∧
    (∀ (l1 l2 : List Char) (s t : Nat),
      fourDigits l1 = some s → fourDigits l2 = some t →
      parseYearFilter (l1 ++ '-' :: l2) =
        some ⟨some (Nat.min s t), some (Nat.max s t)⟩) ∧
    (∀ (l : List Char) (v : Nat), fourDigits l = some v →
      parseYearFilter ('>' :: l) = some ⟨some v, none⟩ ∧
      parseYearFilter ('>' :: '=' :: l) = some ⟨some v, none⟩) ∧
    (∀ (l : List Char) (v : Nat), fourDigits l = some v →
      parseYearFilter ('<' :: l) = some ⟨none, some v⟩ ∧
      parseYearFilter ('<' :: '=' :: l) = some ⟨none, some v⟩) ∧
    (∀ toks : List (List Char),
      foldYearTokens toks = (listMax (minsOf toks), listMin (maxesOf toks))) ∧
    (∀ (e : Entry) (m M : Nat), M < m →
      matchesFilters e ⟨[], [], some m, some M⟩ = false) := by
  refine ⟨fun l v h => parseYearFilter_exact h,
    fun l1 l2 s t h1 h2 => parseYearFilter_range h1 h2,
    fun l v h => parseYearFilter_lower h,
    fun l v h => parseYearFilter_upper h,
    ?_,
    fun e m M h => emptyRange_matches_nothing e m M h⟩
  intro toks
  unfold foldYearTokens
  have h1 := foldYear_fst toks (none, none)
  have h2 := foldYear_snd toks (none, none)
  exact Prod.ext h1 h2

/-- C5 witness: the four concrete syntactic forms, a two-token
intersection, and an impossible range matching nothing. -/
theorem C5_witness :
    parseYearFilter ['2', '0', '1', '9'] = some ⟨some 2019, some 2019⟩ ∧
    parseYearFilter ['2', '0', '2', '1', '-', '2', '0', '1', '9'] =
      some ⟨some 2019, some 2021⟩ ∧
    parseYearFilter ['>', '2', '0', '0', '5'] = some ⟨some 2005, none⟩ ∧
    parseYearFilter ['<', '=', '1', '9', '9', '9'] = some ⟨none, some 1999⟩ ∧
    foldYearTokens [['>', '2', '0', '0', '5'], ['<', '=', '1', '9', '9', '9']] =
      (some 2005, some 1999) ∧
    matchesFilters ⟨ResultType.item, [], some 2000⟩ ⟨[], [], some 2005, some 1999⟩ =
      false :=
  ⟨C5_yearFilter_spec.1 ['2', '0', '1', '9'] 2019 (by decide),
   C5_yearFilter_spec.2.1 ['2', '0', '2', '1'] ['2', '0', '1', '9'] 2021 2019
     (by decide) (by decide),
   (C5_yearFilter_spec.2.2.1 ['2', '0', '0', '5'] 2005 (by decide)).1,
   (C5_yearFilter_spec.2.2.2.1 ['1', '9', '9', '9'] 1999 (by decide)).2,
   (C5_yearFilter_spec.2.2.2.2.1
     [['>', '2', '0', '0', '5'], ['<', '=', '1', '9', '9', '9']]).trans (by decide),
   C5_yearFilter_spec.2.2.2.2.2 ⟨ResultType.item, [], some 2000⟩ 2005 1999
     (by decide)⟩

/-- C6: for a query that trims to the empty string, `updateResults` renders
the recent view computed by `buildRecentResults`, for every search and
command function alike (so the index is never consulted); and the recent
view is nonempty whenever there is at least one recent search and the
results limit is at least 2. -/
theorem C6_empty_query_recents (raw : List Char) (st : PaletteState)
    (searchFn commandFn : List Char → List PalResult)
    (h : trimWs raw = []) :
    updateResultsModel raw st searchFn commandFn =
      (DisplayMode.recent, buildRecentResults st) ∧
    (st.recentSearches ≠ [] → 2 ≤ st.resultsLimit →
      buildRecentResults st ≠ []) :=
  ⟨updateResults_empty raw st searchFn commandFn h,
   fun hs hl => buildRecentResults_ne_nil st hs hl⟩

/-- C6 witness: the empty query on a state with one recent search renders
the recent view, which is nonempty. -/
theorem C6_witness :
    updateResultsModel [] wPalette wFn wFn =
      (DisplayMode.recent, buildRecentResults wPalette) ∧
    buildRecentResults wPalette ≠ [] :=
  ⟨(C6_empty_query_recents [] wPalette wFn wFn rfl).1,
   (C6_empty_query_recents [] wPalette wFn wFn rfl).2 (by decide) (by decide)⟩

/-- C7: for every positive id, `recordOpen` increments that id's usage
count by exactly one, leaves the id at the front of the recency queue
appearing exactly once, and keeps the queue within the cap of 80; every
sequence of calls from the initial state respects the cap; and `n` calls
for the same id from the initial state yield usage count `n`. -/
theorem C7_recordOpen_spec :
    (∀ (s : SearchState) (id : Nat), 0 < id →
      (recordOpen id s).usageCounts id = s.usageCounts id + 1 ∧
      (recordOpen id s).recentItemIDs.head? = some id ∧
      (recordOpen id s).recentItemIDs.count id = 1 ∧
      (recordOpen id s).recentItemIDs.length ≤ 80) ∧
    (∀ ids : List Nat,
      ((ids.foldl (fun s i => recordOpen i s) initSearchState).recentItemIDs).length ≤ 80) ∧
    (∀ n id : Nat, 0 < id →
      ((recordOpen id)^[n] initSearchState).usageCounts id = n) :=
  ⟨recordOpen_step, recordOpen_cap, recordOpen_iterate⟩

/-- C7 witness: three calls for id 42 yield usage count 3, and 42 sits at
the front of the queue exactly once. -/
theorem C7_witness :
    ((recordOpen 42)^[3] initSearchState).usageCounts 42 = 3 ∧
    (recordOpen 42 initSearchState).recentItemIDs.head? = some 42 ∧
    (recordOpen 42 initSearchState).recentItemIDs.count 42 = 1 :=
  ⟨C7_recordOpen_spec.2.2 3 42 (by decide),
   (C7_recordOpen_spec.1 initSearchState 42 (by decide)).2.1,
   (C7_recordOpen_spec.1 initSearchState 42 (by decide)).2.2.1⟩

/-- C8 witness: a throwing command reports failure with unchanged state, a
succeeding available command reports success, and an unknown id reports
failure with unchanged state. -/
theorem C8_witness :
    runCommand "bad-cmd" () wRegistry = (false, wRegistry) ∧
    (runCommand "ok-cmd" () wRegistry).1 = true ∧
    runCommand "missing" () wRegistry = (false, wRegistry) :=
  ⟨(C8_runCommand_spec "bad-cmd" () wRegistry).2.2.1 badCmd "boom" rfl rfl rfl,
   ((C8_runCommand_spec "ok-cmd" () wRegistry).2.2.2.1 okCmd rfl rfl rfl).1,
   (C8_runCommand_spec "missing" () wRegistry).1 rfl⟩

/-- C10: `fuzzyScore` returns the sentinel `-1` whenever the normalized
query (or the normalized haystack) is empty, even though the empty string
is a subsequence of every haystack. -/
theorem C10_empty_sentinel (query text : List Char)
    (h : normalize query = [] ∨ normalize text = []) :
    fuzzyScore query text = -1 := by
  unfold fuzzyScore
  rw [if_pos h]

/-- C10 witness: the all-whitespace query scores `-1` against a nonempty
haystack. -/
theorem C10_witness : fuzzyScore [' '] ['a'] = -1 :=
  C10_empty_sentinel [' '] ['a'] (Or.inl (by decide))

/-- C1 counterexample: the empty query's normalization is (vacuously) a
subsequence of the normalized haystack `"a"`, yet `fuzzyScore` is negative,
refuting the claim's universal positive-score direction. -/
theorem C1_counterexample :
    List.Sublist (normalize []) (normalize ['a']) ∧ fuzzyScore [] ['a'] < 0 :=
  ⟨by decide, by decide⟩

/-- C1 witness: the one-character query `"a"` is a subsequence of `"ab"`
and scores positively. -/
theorem C1_witness :
    normalize ['a'] ≠ [] ∧ 0 < fuzzyScore ['a'] ['a', 'b'] :=
  ⟨by decide, (C1_fuzzyScore_subsequence ['a'] ['a', 'b'] (by decide)).1 (by decide)⟩

/-- C2 counterexample: on query `"ab"` and haystack `"ab"` the source
returns 34 while the claim's accumulation (baseline added on every matched
character, consecutive bonus on top) yields 36. -/
theorem C2_counterexample :
    fuzzyScore ['a', 'b'] ['a', 'b'] = 34 ∧
    claimFuzzyScore ['a', 'b'] ['a', 'b'] = 36 ∧
    claimFuzzyScore ['a', 'b'] ['a', 'b'] ≠ fuzzyScore ['a', 'b'] ['a', 'b'] := by
  refine ⟨by decide, by decide, by decide⟩

/-- C9 counterexample: a file attachment without a content type is
searchable in the source but not under the claim's wording. -/
theorem C9_counterexample :
    isSearchableAttachment fileNoType = true ∧ claimSearchable fileNoType = false := by
  decide

/-- C3 witness: in the one-library corpus, the parent of the searchable PDF
is suppressed while the attachment, the note and the attachment-free paper
each yield exactly one entry. -/
theorem C3_witness :
    cnt 1 (buildIndex witLibs) = 0 ∧ cnt 2 (buildIndex witLibs) = 1 ∧
    cnt 3 (buildIndex witLibs) = 1 ∧ cnt 4 (buildIndex witLibs) = 1 := by
  have h := C3_buildIndex_suppression witLibs (by decide) (by decide)
  refine ⟨?_, ?_, ?_, ?_⟩
  · exact h.1 _ (List.mem_cons_self _ _) ⟨1, ItemKind.regular, none⟩ (by decide)
      rfl (by decide)
  · exact h.2 _ (List.mem_cons_self _ _)
      ⟨2, ItemKind.attach ⟨false, false, true, false, true⟩, some 1⟩ (by decide)
      (Or.inr (Or.inr (by decide)))
  · exact h.2 _ (List.mem_cons_self _ _) ⟨3, ItemKind.note, some 1⟩ (by decide)
      (Or.inr (Or.inl rfl))
  · exact h.2 _ (List.mem_cons_self _ _) ⟨4, ItemKind.regular, none⟩ (by decide)
      (Or.inl ⟨rfl, by decide⟩)

end Spotlight
